import Mathlib

/-!
# go-ftps: command parser, idle timer, session context and REPL driver

A shallow embedding of `go-ftps.go`.  Go strings are represented by Lean
strings; the program only ever cuts strings at the ASCII characters space,
carriage return and line feed, so working on characters instead of bytes does
not change any result.  The Go standard library functions the program calls
(`strings.Split`, `strings.Join`, `strings.Trim`) are given small list based
definitions below.
-/

namespace GoFtps

/-! ## The part of package `strings` used by the program -/

namespace strings

/-- Character level worker of `Split`: cut a character list at every
occurrence of `sep`.  The result always has one more element than there are
separators, so the empty input yields one empty piece. -/
def splitChars (sep : Char) : List Char → List (List Char)
  | [] => [[]]
  | c :: cs =>
    if c = sep then [] :: splitChars sep cs
    else
      match splitChars sep cs with
      | [] => [[c]]
      | t :: ts => (c :: t) :: ts

/-- Character level worker of `Join`. -/
def joinChars (sep : List Char) : List (List Char) → List Char
  | [] => []
  | [t] => t
  | t :: u :: ts => t ++ sep ++ joinChars sep (u :: ts)

/-- Go `strings.Split(s, sep)` for a separator that is a single character (the
program only calls it with the separator `" "`). -/
def Split (s : String) (sep : Char) : List String :=
  (splitChars sep s.data).map String.mk

/-- Go `strings.Join(elems, sep)`. -/
def Join (elems : List String) (sep : String) : String :=
  String.mk (joinChars sep.data (elems.map String.data))

/-- Go `strings.Trim(s, cutset)`: remove all leading and trailing characters
contained in `cutset`. -/
def Trim (s : String) (cutset : String) : String :=
  String.mk
    (((s.data.dropWhile (fun c => decide (c ∈ cutset.data))).reverse.dropWhile
      (fun c => decide (c ∈ cutset.data))).reverse)

/-- Go `strings.Fields(s)` restricted to the ASCII white space characters:
the maximal runs of non white space characters of `s`.  It is not called by
the program; it is the tokenizer that the words "split on whitespace"
describe. -/
def fieldsChars : List Char → List Char → List (List Char)
  | [], cur => if cur = [] then [] else [cur.reverse]
  | c :: cs, cur =>
    if c.isWhitespace then
      (if cur = [] then fieldsChars cs [] else cur.reverse :: fieldsChars cs [])
    else fieldsChars cs (c :: cur)

/-- Tokens of a line separated by runs of white space. -/
def Fields (s : String) : List String :=
  (fieldsChars s.data []).map String.mk

end strings

/-! ## Command parser (lines 22-65) -/

/-- Command code `BAD` (iota = 0). -/
def BAD : Int := 0
/-- Command code `PWD`: list present working directory. -/
def PWD : Int := 1
/-- Command code `CD`: cd to directory. -/
def CD : Int := 2
/-- Command code `LS`: simple list files in current directory. -/
def LS : Int := 3
/-- Command code `PUT`: put a file. -/
def PUT : Int := 4
/-- Command code `GET`: get a file. -/
def GET : Int := 5

/-- Source function `get_command` (lines 33-48). -/
def get_command (part : String) : Int :=
  if part = "pwd" then PWD
  else if part = "cd" then CD
  else if part = "ls" then LS
  else if part = "put" then PUT
  else if part = "get" then GET
  else BAD

/-- Source function `parse` (lines 50-65).  The named results `code` and `arg`
start at their zero values `0` and `""`. -/
def parse (command : String) : Int × String :=
  let parts := strings.Split command ' '
  if parts.length = 1 then
    (get_command (parts.getD 0 ""), "")
  else if parts.length > 1 then
    let code := get_command (parts.getD 0 "")
    if code = PUT ∨ code = GET then
      (code, strings.Join (parts.drop 1) " ")
    else
      (code, parts.getD 1 "")
  else
    (0, "")

/-- The parser as section 4.1 words it, over an arbitrary tokenizer: the verb
is the vocabulary lookup of the first token; the argument is empty for one
token, the remaining tokens rejoined with single spaces for `put`/`get`, and
the second token otherwise. -/
def reference_parse (tokenize : String → List String) (line : String) : Int × String :=
  match tokenize line with
  | [] => (BAD, "")
  | [verb] => (get_command verb, "")
  | verb :: second :: more =>
    if verb = "put" ∨ verb = "get" then
      (get_command verb, strings.Join (second :: more) " ")
    else
      (get_command verb, second)

/-- The section 4.1 reference parser, read literally: tokens are what is left
after splitting the line on white space. -/
def parse_spec (line : String) : Int × String :=
  reference_parse strings.Fields line

/-! ## Expiry timer (lines 69-91) -/

/-- Go `time.Second`, in nanoseconds (a `time.Duration` is an `int64` count of
nanoseconds). -/
def Second : Int := 1000000000

/-- Two's complement wrap of an integer to the `int64` range. -/
def wrap64 (x : Int) : Int := (x + 2 ^ 63) % 2 ^ 64 - 2 ^ 63

/-- A runtime timer, as created by `time.AfterFunc`: all the program can do
with it is arm it again, so it is represented by the duration it was last
armed with.  Its callback is always `end_fn`, modelled by `command_timer.expire`. -/
structure Timer where
  armed : Int
deriving DecidableEq, Repr

/-- Go `(*time.Timer).Reset(d)`. -/
def Timer.Reset (_t : Timer) (d : Int) : Timer := { armed := d }

/-- Go `time.AfterFunc(d, f)`. -/
def AfterFunc (d : Int) : Timer := { armed := d }

/-- Source type `command_timer` (lines 70-74).  The pointer `tmr` is `none`
when nil. -/
structure command_timer where
  tmr : Option Timer
  is_active : Bool
  duration : Int
deriving DecidableEq, Repr

namespace command_timer

/-- The Go zero value `command_timer{}`. -/
def zero : command_timer := { tmr := none, is_active := false, duration := 0 }

/-- Source method `command_timer.init` (lines 76-79). -/
def init (ctm : command_timer) (d : Int) : command_timer :=
  { ctm with is_active := false, duration := wrap64 (d * Second) }

/-- Source method `command_timer.reset` (lines 81-91).  The result is `none`
when `ctm.tmr.Reset` is called through a nil pointer, which panics. -/
def reset (ctm : command_timer) : Option command_timer :=
  if ctm.is_active = true then
    match ctm.tmr with
    | none => none
    | some t => some { ctm with tmr := some (t.Reset ctm.duration) }
  else
    some { ctm with is_active := true, tmr := some (AfterFunc ctm.duration) }

/-- The closure `end_fn` of `reset` (lines 87-89), run by the runtime when the
timer fires. -/
def expire (ctm : command_timer) : command_timer :=
  { ctm with is_active := false }

end command_timer

/-- Events that drive the timer. -/
inductive TimerEvent where
  | init (d : Int)
  | reset
  | expire
deriving DecidableEq, Repr

/-- One timer event applied to a timer state (`none`: the program panicked). -/
def TimerEvent.apply (ctm : command_timer) : TimerEvent → Option command_timer
  | .init d => some (ctm.init d)
  | .reset => ctm.reset
  | .expire => some ctm.expire

/-- A sequence of timer events applied in order. -/
def run_timer : List TimerEvent → command_timer → Option command_timer
  | [], ctm => some ctm
  | ev :: evs, ctm =>
    match ev.apply ctm with
    | none => none
    | some ctm1 => run_timer evs ctm1

/-! ## External collaborators

The FTP library, the local file system and the console are outside the
program.  Every call the program makes on them is appended to a log, and the
answer to a call is an arbitrary function of the log so far and of the call's
arguments, so any deterministic behaviour of the outside world is covered. -/

/-- A Go `error` value, identified by the text its `Error()` method returns.
An absent error (`nil`) is `none : Option GoError`. -/
structure GoError where
  Error : String
deriving DecidableEq, Repr

/-- The pointer `*goftp.FTP`; `none` is nil. -/
abbrev Handle := Option Nat

/-- An `io.Reader` (an open local file or the data connection of `Retr`). -/
abbrev Reader := Nat

/-- Contents of a file (`[]byte`). -/
abbrev Bytes := List Nat

/-- Lines of a listing (`[]string`). -/
abbrev Lines := List String

/-- Go `os.ModePerm` (octal 0777). -/
def ModePerm : Nat := 511

/-- One logged call. -/
inductive Event where
  | Connect (addr : String)
  | ConnectDbg (addr : String)
  | Login (ftp : Handle) (user pass : String)
  | Close (ftp : Handle)
  | Cwd (ftp : Handle) (path : String)
  | Pwd (ftp : Handle)
  | List (ftp : Handle) (path : String)
  | Stor (ftp : Handle) (path : String) (rd : Reader)
  | Retr (ftp : Handle) (path : String)
  | Glob (pattern : String)
  | Open (name : String)
  | ReadAll (rd : Reader)
  | WriteFile (name : String) (content : Bytes) (perm : Nat)
  | Print (text : String)
  | Println (text : String)
  | ReadString
  /- markers written by the REPL driver where it calls a session operation -/
  | call_disconnect
  | call_connect
  | call_action (code : Int) (arg : String)
  | call_reset
deriving DecidableEq, Repr

/-- The log of calls made so far, oldest first. -/
abbrev Log := List Event

/-- What `ftp.Retr(path, retrFn)` does with its callback. -/
inductive RetrCall where
  /-- The transfer fails before the callback is run. -/
  | fails (e : GoError)
  /-- The callback is run once, on the data stream `rd`. -/
  | runs (rd : Reader)
deriving DecidableEq, Repr

/-- The behaviour of the outside world.  Functions with two results return
the pair Go returns (value, error). -/
structure World where
  Connect : Log → String → Handle × Option GoError
  ConnectDbg : Log → String → Handle × Option GoError
  Login : Log → Handle → String → String → Option GoError
  Cwd : Log → Handle → String → Option GoError
  Pwd : Log → Handle → String × Option GoError
  List : Log → Handle → String → Lines × Option GoError
  Stor : Log → Handle → String → Reader → Option GoError
  Retr : Log → Handle → String → RetrCall
  Glob : Log → String → Lines × Option GoError
  Open : Log → String → Reader × Option GoError
  ReadAll : Log → Reader → Bytes × Option GoError
  WriteFile : Log → String → Bytes → Nat → Option GoError
  ReadString : Log → String × Option GoError

/-- How a Go function call ends: it returns, or it panics. -/
inductive Outcome (α : Type) where
  | ret (a : α)
  | panic (e : GoError)
deriving DecidableEq, Repr

/-! ## The session context (lines 95-257) -/

/-- Constant `Timeout`: timeout in seconds. -/
def Timeout : Int := 5 * 60

/-- Source type `context` (lines 96-104). -/
structure context where
  server_name : String
  user_name : String
  password : String
  last_dir : String
  ftp : Handle
  debug : Bool
  timer : command_timer
deriving DecidableEq, Repr

/-- The program state: the global `ctx` and the log of calls made so far. -/
structure State where
  ctx : context
  log : Log
deriving DecidableEq, Repr

/-- Append one event to the log. -/
def State.mark (s : State) (ev : Event) : State :=
  { s with log := s.log ++ [ev] }

/-- The session operations among the events of a log, in order. -/
def session_ops (log : Log) : Log :=
  log.filter (fun ev =>
    match ev with
    | .call_disconnect => true
    | .call_connect => true
    | .call_action _ _ => true
    | .call_reset => true
    | _ => false)

/-- Source method `context.init_context` (lines 106-115). -/
def init_context (ctx : context) (sn un pass : String) (dbg : Bool) : context :=
  { server_name := sn, user_name := un, password := pass, last_dir := "",
    ftp := none, debug := dbg, timer := ctx.timer.init Timeout }

/-- Source method `context.disconnect` (lines 117-119). -/
def disconnect (s : State) : State :=
  { s with log := s.log ++ [Event.Close s.ctx.ftp] }

/-- Source method `context.connect` (lines 121-153). -/
def connect (w : World) (s : State) : State × Outcome Unit :=
  let addr := s.ctx.server_name ++ ":21"
  let r := if s.ctx.debug then w.ConnectDbg s.log addr else w.Connect s.log addr
  let s1 : State :=
    { ctx := { s.ctx with ftp := r.1 },
      log := s.log ++ [if s.ctx.debug then Event.ConnectDbg addr else Event.Connect addr] }
  match r.2 with
  | some e => (s1, .panic e)
  | none =>
    let err := w.Login s1.log s1.ctx.ftp s1.ctx.user_name s1.ctx.password
    let s2 : State :=
      { s1 with log := s1.log ++ [Event.Login s1.ctx.ftp s1.ctx.user_name s1.ctx.password] }
    match err with
    | some e => ({ s2 with log := s2.log ++ [Event.Print "Cannot login to server...\n"] }, .panic e)
    | none =>
      if s2.ctx.last_dir ≠ "" then
        ({ s2 with log := s2.log ++ [Event.Cwd s2.ctx.ftp s2.ctx.last_dir] }, .ret ())
      else
        let q := w.Pwd s2.log s2.ctx.ftp
        let s3 : State :=
          { ctx := { s2.ctx with last_dir := q.1 }, log := s2.log ++ [Event.Pwd s2.ctx.ftp] }
        match q.2 with
        | some e => (s3, .panic e)
        | none => (s3, .ret ())

/-- Inner loop of `PUT` (lines 212-220): open and store every matched file.
The result is `some text` when the loop left `action` with `return text`. -/
def put_files (w : World) (ftp : Handle) : List String → Log → Log × Option String
  | [], log => (log, none)
  | f :: fs, log =>
    let o := w.Open log f
    let log1 := log ++ [Event.Open f]
    match o.2 with
    | some e => (log1, some e.Error)
    | none =>
      let log2 := log1 ++ [Event.Println ("\tputting " ++ f)]
      let err := w.Stor log2 ftp f o.1
      let log3 := log2 ++ [Event.Stor ftp f o.1]
      match err with
      | some e => (log3, some e.Error)
      | none => put_files w ftp fs log3

/-- Outer loop of `PUT` (lines 199-221), over the patterns of the argument. -/
def put_pargs (w : World) (ftp : Handle) : List String → Log → Log × Option String
  | [], log => (log, none)
  | parg :: rest, log =>
    if parg = "" then (log, some "Specify files to be PUT")
    else
      let g := w.Glob log parg
      let log1 := log ++ [Event.Glob parg]
      match g.2 with
      | some e => (log1, some e.Error)
      | none =>
        match put_files w ftp g.1 log1 with
        | (log2, some text) => (log2, some text)
        | (log2, none) => put_pargs w ftp rest log2

/-- The callback passed to `Retr` (lines 240-250), for the file name `p`: read
everything, panic if that fails, write the local file and return the error of
the write. -/
def retr_callback (w : World) (p : String) (rd : Reader) (log : Log) :
    Log × Outcome (Option GoError) :=
  let c := w.ReadAll log rd
  let log1 := log ++ [Event.ReadAll rd]
  match c.2 with
  | some e => (log1, .panic e)
  | none =>
    (log1 ++ [Event.WriteFile p c.1 ModePerm], .ret (w.WriteFile log1 p c.1 ModePerm))

/-- The call `ctx.ftp.Retr(p, callback)` of line 240.  The value is the error
`Retr` hands back: its own when the transfer fails, the callback's otherwise. -/
def Retr (w : World) (ftp : Handle) (p : String) (log : Log) :
    Log × Outcome (Option GoError) :=
  match w.Retr log ftp p with
  | .fails e => (log ++ [Event.Retr ftp p], .ret (some e))
  | .runs rd => retr_callback w p rd (log ++ [Event.Retr ftp p])

/-- The file name taken from a listing line (lines 237-238): the last piece
of the line, trimmed of line terminators and split at spaces. -/
def listed_name (f : String) : String :=
  let parts := strings.Split (strings.Trim f "\n\r") ' '
  parts.getD (parts.length - 1) ""

/-- Inner loop of `GET` (lines 236-251).  The statement of line 240 drops
what `Retr` returns, so only a panic ends the loop early. -/
def get_files (w : World) (ftp : Handle) : List String → Log → Log × Outcome Unit
  | [], log => (log, .ret ())
  | f :: fs, log =>
    let p := listed_name f
    let log1 := log ++ [Event.Println ("\tgetting " ++ p)]
    match Retr w ftp p log1 with
    | (log2, .panic e) => (log2, .panic e)
    | (log2, .ret _) => get_files w ftp fs log2

/-- Outer loop of `GET` (lines 231-252), over the patterns of the argument.
The result is `some text` when the loop left `action` with `return text`. -/
def get_pargs (w : World) (ftp : Handle) : List String → Log → Log × Outcome (Option String)
  | [], log => (log, .ret none)
  | parg :: rest, log =>
    let l := w.List log ftp parg
    let log1 := log ++ [Event.List ftp parg]
    match l.2 with
    | some e => (log1, .ret (some e.Error))
    | none =>
      match get_files w ftp l.1 log1 with
      | (log2, .panic e) => (log2, .panic e)
      | (log2, .ret _) => get_pargs w ftp rest log2

/-- Source method `context.action` (lines 155-257). -/
def action (w : World) (s : State) (code : Int) (arg : String) : State × Outcome String :=
  if code = BAD then (s, .ret "Don't know that!")
  else if code = PWD then (s, .ret s.ctx.last_dir)
  else if code = CD then
    let arg1 := if arg = "" then "~" else arg
    let err := w.Cwd s.log s.ctx.ftp arg1
    let s1 : State := { s with log := s.log ++ [Event.Cwd s.ctx.ftp arg1] }
    match err with
    | some e => (s1, .ret e.Error)
    | none =>
      let q := w.Pwd s1.log s1.ctx.ftp
      let s2 : State :=
        { ctx := { s1.ctx with last_dir := q.1 }, log := s1.log ++ [Event.Pwd s1.ctx.ftp] }
      match q.2 with
      | some e => (s2, .panic e)
      | none => (s2, .ret "")
  else if code = LS then
    let arg1 := if arg = "" then "." else arg
    let l := w.List s.log s.ctx.ftp arg1
    let s1 : State := { s with log := s.log ++ [Event.List s.ctx.ftp arg1] }
    match l.2 with
    | some e => (s1, .ret e.Error)
    | none => (s1, .ret (strings.Join l.1 ""))
  else if code = PUT then
    if arg = "" then (s, .ret "No arguments")
    else
      match put_pargs w s.ctx.ftp (strings.Split arg ' ') s.log with
      | (log1, some text) => ({ s with log := log1 }, .ret text)
      | (log1, none) => ({ s with log := log1 }, .ret "")
  else if code = GET then
    if arg = " " then (s, .ret "No arguments")
    else
      match get_pargs w s.ctx.ftp (strings.Split arg ' ') s.log with
      | (log1, .panic e) => ({ s with log := log1 }, .panic e)
      | (log1, .ret (some text)) => ({ s with log := log1 }, .ret text)
      | (log1, .ret none) => ({ s with log := log1 }, .ret "")
  else (s, .ret "")

/-! ## The session REPL (lines 281-312) -/

/-- How one pass through the body of the `for` loop of `repl` ends. -/
inductive Step where
  /-- The body ran to its end; the loop goes round again. -/
  | next
  /-- The loop was left with `break`. -/
  | stop
  /-- A panic unwound the loop. -/
  | panicked (e : GoError)
deriving DecidableEq, Repr

/-- The run-time error raised when a nil pointer is dereferenced. -/
def nil_dereference : GoError :=
  { Error := "runtime error: invalid memory address or nil pointer dereference" }

/-- The body of the `for` loop of `repl` (lines 289-310).  Next to the calls
on the outside world the log receives a marker each time a session operation
(`disconnect`, `connect`, `action`, `timer.reset`) is called. -/
def repl_body (w : World) (s : State) : State × Step :=
  let s1 : State := { s with log := s.log ++ [Event.Print ("ftps[" ++ s.ctx.last_dir ++ "]$ ")] }
  let rd := w.ReadString s1.log
  let s2 : State := { s1 with log := s1.log ++ [Event.ReadString] }
  match rd.2 with
  | some _ => (s2, .stop)
  | none =>
    let command := strings.Trim rd.1 "\n\r"
    if command = "quit" ∨ command = "exit" then (s2, .stop)
    else
      let pr := parse command
      let c : State × Outcome Unit :=
        if ¬ s2.ctx.timer.is_active = true then
          connect w ((disconnect (s2.mark Event.call_disconnect)).mark Event.call_connect)
        else (s2, .ret ())
      match c with
      | (s3, .panic e) => (s3, .panicked e)
      | (s3, .ret _) =>
        match action w (s3.mark (Event.call_action pr.1 pr.2)) pr.1 pr.2 with
        | (s4, .panic e) => (s4, .panicked e)
        | (s4, .ret text) =>
          let s5 : State := (s4.mark (Event.Println text)).mark Event.call_reset
          match s5.ctx.timer.reset with
          | none => (s5, .panicked nil_dereference)
          | some t => ({ s5 with ctx := { s5.ctx with timer := t } }, .next)

/-- The states of the timer in which the program can call `reset` safely: an
active flag comes with a timer. -/
def command_timer.armed_when_active (ctm : command_timer) : Prop :=
  ctm.is_active = true → ctm.tmr ≠ none

/-! ## Reading a log -/

/-- The error, if any, with which the world answers the call `ev` made when
the log is `pre`, for the calls whose error `action` looks at.  The error of
`Retr` (and with it that of `WriteFile`) is not among them: line 240 drops it. -/
def World.checked_error (w : World) (pre : Log) : Event → Option GoError
  | .Cwd ftp path => w.Cwd pre ftp path
  | .Pwd ftp => (w.Pwd pre ftp).2
  | .List ftp path => (w.List pre ftp path).2
  | .Glob pattern => (w.Glob pre pattern).2
  | .Open name => (w.Open pre name).2
  | .Stor ftp path rd => w.Stor pre ftp path rd
  | .ReadAll rd => (w.ReadAll pre rd).2
  | _ => none

/-- How `action` ends once the call `ev` has been answered with the error `e`:
with a panic for `Pwd` and `ReadAll`, with the text of the error otherwise. -/
def ending_after (ev : Event) (e : GoError) : Outcome String :=
  match ev with
  | .Pwd _ => .panic e
  | .ReadAll _ => .panic e
  | _ => .ret e.Error

/-- A stretch `new` of calls, made from the log `log` on, treats errors the
way `action` is meant to.  `out` is how `action` has ended by the end of the
stretch (`none`: it is still running).  A checked call answered with an error
is the last call and decides the ending; a panic comes from such a call; and
the stretch contains no session operation marker. -/
def Faithful (w : World) (log new : Log) (out : Option (Outcome String)) : Prop :=
  (∀ pre ev post e, new = pre ++ ev :: post → w.checked_error (log ++ pre) ev = some e →
      post = [] ∧ out = some (ending_after ev e)) ∧
  (∀ e, out = some (.panic e) → ∃ pre ev, new = pre ++ [ev] ∧
      w.checked_error (log ++ pre) ev = some e ∧ ending_after ev e = .panic e) ∧
  session_ops new = []

/-- The ending of `action` that a step inside a loop amounts to when the step
can only end `action` by panicking. -/
def panic_only {α : Type} : Outcome α → Option (Outcome String)
  | .panic e => some (.panic e)
  | .ret _ => none

/-- The ending of `action` that a loop result amounts to: a panic, a `return`
with a text, or none when the loop ran to its end. -/
def early : Outcome (Option String) → Option (Outcome String)
  | .panic e => some (.panic e)
  | .ret (some text) => some (.ret text)
  | .ret none => none

/-! ## Concrete sessions used to evaluate the program -/

/-- An outside world in which every call succeeds: listings and glob
expansions are empty, the remote directory is `/`, and standard input is at
its end. -/
def calm : World where
  Connect := fun _ _ => (some 1, none)
  ConnectDbg := fun _ _ => (some 1, none)
  Login := fun _ _ _ _ => none
  Cwd := fun _ _ _ => none
  Pwd := fun _ _ => ("/", none)
  List := fun _ _ _ => ([], none)
  Stor := fun _ _ _ _ => none
  Retr := fun _ _ _ => .runs 7
  Glob := fun _ _ => ([], none)
  Open := fun _ _ => (3, none)
  ReadAll := fun _ _ => ([], none)
  WriteFile := fun _ _ _ _ => none
  ReadString := fun _ => ("", some { Error := "EOF" })

/-- A session connected to `host` as `anonymous`, in remote directory `/pub`,
with a running idle timer and an empty log. -/
def session : State where
  ctx :=
    { server_name := "host", user_name := "anonymous", password := "",
      last_dir := "/pub", ftp := some 1, debug := false,
      timer := { tmr := some (AfterFunc 300000000000), is_active := true,
                 duration := 300000000000 } }
  log := []

/-- The same session after the idle timer has fired. -/
def idle_session : State :=
  { session with ctx := { session.ctx with timer := session.ctx.timer.expire } }

/-- A world whose server refuses every change of directory. -/
def no_such_directory : World :=
  { calm with Cwd := fun _ _ _ => some { Error := "550 No such directory" } }

/-- A world whose server changes directory and answers the following
current-directory query with `/pub/incoming`. -/
def moved : World :=
  { calm with Pwd := fun _ _ => ("/pub/incoming", none) }

/-- A world whose server accepts a change of directory and then fails the
current-directory query. -/
def pwd_broken : World :=
  { calm with Pwd := fun _ _ => ("", some { Error := "421 Service not available" }) }

/-- A world whose server lists two files for every pattern and fails the
retrieval of `a.txt`. -/
def retr_broken : World :=
  { calm with
    List := fun _ _ _ => (["-rw-r--r-- 1 ftp ftp 5 a.txt\r\n", "-rw-r--r-- 1 ftp ftp 7 b.txt\r\n"], none)
    Retr := fun _ _ p =>
      if p = "a.txt" then .fails { Error := "550 Permission denied" } else .runs 7 }

/-- A world whose server lists two files for every pattern and in which no
local file can be written. -/
def disk_full : World :=
  { calm with
    List := fun _ _ _ => (["a.txt\n", "b.txt\n"], none)
    WriteFile := fun _ _ _ _ => some { Error := "no space left on device" } }

/-- A world in which the server has gone away: connecting fails. -/
def unreachable : World :=
  { calm with Connect := fun _ _ => (none, some { Error := "dial tcp: connection refused" }) }

/-- A world in which the user types `text` as the next line. -/
def typing (w : World) (text : String) : World :=
  { w with ReadString := fun _ => (text, none) }

/-! ## Facts about the string functions -/

theorem splitChars_ne_nil (sep : Char) (s : List Char) : strings.splitChars sep s ≠ [] := by
  cases s with
  | nil => simp [strings.splitChars]
  | cons c cs =>
    unfold strings.splitChars
    split
    · simp
    · split <;> simp

theorem joinChars_cons_head (sep : List Char) (c : Char) (t : List Char)
    (ts : List (List Char)) :
    strings.joinChars sep ((c :: t) :: ts) = c :: strings.joinChars sep (t :: ts) := by
  cases ts <;> simp [strings.joinChars]

theorem joinChars_splitChars (sep : Char) (s : List Char) :
    strings.joinChars [sep] (strings.splitChars sep s) = s := by
  induction s with
  | nil => simp [strings.splitChars, strings.joinChars]
  | cons c cs ih =>
    unfold strings.splitChars
    split
    · next h =>
      cases hs : strings.splitChars sep cs with
      | nil => exact absurd hs (splitChars_ne_nil sep cs)
      | cons u us =>
        rw [hs] at ih
        simp [strings.joinChars, ih, h]
    · cases hs : strings.splitChars sep cs with
      | nil => exact absurd hs (splitChars_ne_nil sep cs)
      | cons u us =>
        rw [hs] at ih
        simp only [joinChars_cons_head, ih]

theorem splitChars_no_sep (sep : Char) (s : List Char) :
    ∀ t ∈ strings.splitChars sep s, sep ∉ t := by
  induction s with
  | nil => simp [strings.splitChars]
  | cons c cs ih =>
    unfold strings.splitChars
    split
    · intro t ht
      rcases List.mem_cons.1 ht with rfl | ht
      · simp
      · exact ih t ht
    · next h =>
      cases hs : strings.splitChars sep cs with
      | nil => exact absurd hs (splitChars_ne_nil sep cs)
      | cons u us =>
        rw [hs] at ih
        intro t ht
        rcases List.mem_cons.1 ht with rfl | ht
        · intro hmem
          rcases List.mem_cons.1 hmem with heq | hmem
          · exact h heq.symm
          · exact ih u (List.mem_cons_self _ _) hmem
        · exact ih t (List.mem_cons_of_mem _ ht)

theorem splitChars_append_sep (sep : Char) (t rest : List Char) (ht : sep ∉ t) :
    strings.splitChars sep (t ++ sep :: rest) = t :: strings.splitChars sep rest := by
  induction t with
  | nil => simp [strings.splitChars]
  | cons c cs ih =>
    have hc : c ≠ sep := fun h => ht (by simp [h])
    have hcs : sep ∉ cs := fun h => ht (List.mem_cons_of_mem _ h)
    have e : strings.splitChars sep (c :: (cs ++ sep :: rest))
        = (c :: cs) :: strings.splitChars sep rest := by
      rw [strings.splitChars, if_neg hc, ih hcs]
    simpa using e

theorem splitChars_of_no_sep (sep : Char) (t : List Char) (ht : sep ∉ t) :
    strings.splitChars sep t = [t] := by
  induction t with
  | nil => simp [strings.splitChars]
  | cons c cs ih =>
    have hc : c ≠ sep := fun h => ht (by simp [h])
    have hcs : sep ∉ cs := fun h => ht (List.mem_cons_of_mem _ h)
    simp only [strings.splitChars, if_neg hc, ih hcs]

theorem splitChars_joinChars (sep : Char) (ts : List (List Char)) (hne : ts ≠ [])
    (hts : ∀ t ∈ ts, sep ∉ t) :
    strings.splitChars sep (strings.joinChars [sep] ts) = ts := by
  induction ts with
  | nil => exact absurd rfl hne
  | cons t us ih =>
    cases us with
    | nil => simpa [strings.joinChars] using splitChars_of_no_sep sep t (hts t (by simp))
    | cons u vs =>
      have h1 : sep ∉ t := hts t (by simp)
      have h2 := ih (by simp) (fun x hx => hts x (List.mem_cons_of_mem _ hx))
      simp only [strings.joinChars, List.append_assoc, List.singleton_append]
      rw [splitChars_append_sep sep t _ h1, h2]

theorem Split_ne_nil (s : String) (sep : Char) : strings.Split s sep ≠ [] := by
  simp [strings.Split, splitChars_ne_nil]

theorem Split_no_sep (s : String) (sep : Char) :
    ∀ t ∈ strings.Split s sep, sep ∉ t.data := by
  intro t ht
  simp only [strings.Split, List.mem_map] at ht
  obtain ⟨l, hl, rfl⟩ := ht
  exact splitChars_no_sep sep s.data l hl

theorem Join_Split (s : String) : strings.Join (strings.Split s ' ') " " = s := by
  have h : (" " : String).data = [' '] := rfl
  simp only [strings.Join, strings.Split, List.map_map, h]
  have : (String.data ∘ String.mk) = id := by funext l; rfl
  rw [this, List.map_id, joinChars_splitChars]

theorem Split_Join (ts : List String) (hne : ts ≠ [])
    (hts : ∀ t ∈ ts, ' ' ∉ t.data) :
    strings.Split (strings.Join ts " ") ' ' = ts := by
  have h : (" " : String).data = [' '] := rfl
  simp only [strings.Join, strings.Split, h]
  rw [splitChars_joinChars ' ' (ts.map String.data) (by simpa using hne)
    (by
      intro t ht
      simp only [List.mem_map] at ht
      obtain ⟨x, hx, rfl⟩ := ht
      exact hts x hx)]
  simp [List.map_map]
  have : (String.mk ∘ String.data) = id := by funext l; rfl
  rw [this, List.map_id]

/-! ## The command parser -/

theorem get_command_transfer (v : String) :
    (get_command v = PUT ∨ get_command v = GET) ↔ (v = "put" ∨ v = "get") := by
  unfold get_command
  split_ifs with h1 h2 h3 h4 h5
  · subst h1; decide
  · subst h2; decide
  · subst h3; decide
  · subst h4; decide
  · subst h5; decide
  · simp [h4, h5, BAD, PUT, GET]

theorem get_command_eq_GET (v : String) : get_command v = GET ↔ v = "get" := by
  unfold get_command
  split_ifs with h1 h2 h3 h4 h5
  · subst h1; decide
  · subst h2; decide
  · subst h3; decide
  · subst h4; decide
  · subst h5; decide
  · simp [h5, BAD, GET]

/-- What `parse` returns, by the shape of the pieces of the line. -/
theorem parse_cases (line : String) :
    (∃ v, strings.Split line ' ' = [v] ∧ parse line = (get_command v, "")) ∨
    (∃ v u m, strings.Split line ' ' = v :: u :: m ∧ (v = "put" ∨ v = "get") ∧
      parse line = (get_command v, strings.Join (u :: m) " ")) ∨
    (∃ v u m, strings.Split line ' ' = v :: u :: m ∧ ¬ (v = "put" ∨ v = "get") ∧
      parse line = (get_command v, u)) := by
  cases h : strings.Split line ' ' with
  | nil => exact absurd h (Split_ne_nil line ' ')
  | cons v rest =>
    cases rest with
    | nil => left; exact ⟨v, rfl, by simp [parse, h]⟩
    | cons u m =>
      by_cases hv : v = "put" ∨ v = "get"
      · right; left
        refine ⟨v, u, m, rfl, hv, ?_⟩
        have hc := (get_command_transfer v).2 hv
        simp [parse, h, hc]
      · right; right
        refine ⟨v, u, m, rfl, hv, ?_⟩
        have hc : ¬ (get_command v = PUT ∨ get_command v = GET) :=
          fun hc => hv ((get_command_transfer v).1 hc)
        simp [parse, h, hc]

/-- C1 (as stated, refuted): on the line `cd<TAB>x` the program finds one
piece, an unknown verb, where the reference parser of section 4.1, which splits
on white space, finds the verb `cd` and the argument `x`; on `cd  x` (two
spaces) the program takes the empty piece between the spaces as the argument
where the reference parser takes `x`. -/
theorem C1_parse_differs_from_whitespace_reference :
    parse "cd\tx" = (BAD, "") ∧ parse_spec "cd\tx" = (CD, "x") ∧
    parse "cd\tx" ≠ parse_spec "cd\tx" ∧
    parse "cd  x" = (CD, "") ∧ parse_spec "cd  x" = (CD, "x") := by
  decide

/-- C1 (amended): for every input line, `parse` equals the reference parser of
section 4.1 taken over the pieces obtained by cutting the line at every single
space character (so two adjacent spaces enclose an empty piece, and tabs or
other white space do not separate): the verb is the vocabulary lookup of the
first piece; the argument is empty when there is one piece, the remaining
pieces rejoined with single spaces for `put`/`get`, and the second piece for
every other verb. -/
theorem C1_parse_eq_reference_on_single_spaces (line : String) :
    parse line = reference_parse (fun s => strings.Split s ' ') line := by
  unfold reference_parse
  rcases parse_cases line with ⟨v, h, hp⟩ | ⟨v, u, m, h, hv, hp⟩ | ⟨v, u, m, h, hv, hp⟩
  · simp only [h, hp]
  · simp only [h, hp, if_pos hv]
  · simp only [h, hp, if_neg hv]

/-- C2: when the line has more than one piece and the first is `put` or
`get`, the argument returned by `parse` is the tail pieces rejoined with
single spaces, and splitting it at spaces, as `action` does, gives back the
tail pieces in order. -/
theorem C2_transfer_argument_round_trip (line verb : String) (tail : List String)
    (hsplit : strings.Split line ' ' = verb :: tail) (hmore : tail ≠ [])
    (hverb : verb = "put" ∨ verb = "get") :
    (parse line).2 = strings.Join tail " " ∧
    strings.Split (parse line).2 ' ' = tail := by
  have hns : ∀ t ∈ tail, ' ' ∉ t.data := fun t ht =>
    Split_no_sep line ' ' t (by rw [hsplit]; exact List.mem_cons_of_mem _ ht)
  have harg : (parse line).2 = strings.Join tail " " := by
    rcases parse_cases line with ⟨v, h, _⟩ | ⟨v, u, m, h, _, hp⟩ | ⟨v, u, m, h, hv, _⟩
    · rw [hsplit] at h
      simp only [List.cons.injEq] at h
      exact absurd h.2 hmore
    · rw [hsplit] at h
      simp only [List.cons.injEq] at h
      rw [hp, h.2]
    · rw [hsplit] at h
      simp only [List.cons.injEq] at h
      exact absurd (h.1 ▸ hverb) hv
  exact ⟨harg, by rw [harg]; exact Split_Join tail hmore hns⟩

theorem C2_transfer_argument_round_trip_witness :
    strings.Split "put a.txt  *.go" ' ' = "put" :: ["a.txt", "", "*.go"] ∧
    (parse "put a.txt  *.go").2 = strings.Join ["a.txt", "", "*.go"] " " ∧
    strings.Split (parse "put a.txt  *.go").2 ' ' = ["a.txt", "", "*.go"] :=
  ⟨by decide,
   C2_transfer_argument_round_trip "put a.txt  *.go" "put" ["a.txt", "", "*.go"]
     (by decide) (by decide) (by decide)⟩

/-- The only line that `parse` turns into `(GET, " ")`. -/
theorem parse_eq_GET_space (line : String) :
    parse line = (GET, " ") ↔ line = "get  " := by
  constructor
  · intro hp
    rcases parse_cases line with ⟨v, h, hq⟩ | ⟨v, u, m, h, hv, hq⟩ | ⟨v, u, m, h, hv, hq⟩
    · rw [hq] at hp
      exact absurd (Prod.mk.inj hp).2 (by decide)
    · rw [hq] at hp
      obtain ⟨hc, hj⟩ := Prod.mk.inj hp
      have hv1 : v = "get" := (get_command_eq_GET v).1 hc
      have hns : ∀ t ∈ u :: m, ' ' ∉ t.data := fun t ht =>
        Split_no_sep line ' ' t (by rw [h]; exact List.mem_cons_of_mem _ ht)
      have hum : u :: m = ["", ""] := by
        have e := Split_Join (u :: m) (by simp) hns
        rw [hj] at e
        rw [← e]
        decide
      have hl := Join_Split line
      rw [h, hum, hv1] at hl
      rw [← hl]
      decide
    · rw [hq] at hp
      exact absurd ((get_command_eq_GET v).1 (Prod.mk.inj hp).1) (fun e => hv (Or.inr e))
  · intro h
    subst h
    decide


/-! ## Error handling of `action` -/

theorem faithful_nil (w : World) (log : Log) : Faithful w log [] none := by
  refine ⟨?_, ?_, rfl⟩
  · intro pre ev post e h
    simp at h
  · intro e h
    simp at h

theorem faithful_return (w : World) (log : Log) (text : String) :
    Faithful w log [] (some (.ret text)) := by
  refine ⟨?_, ?_, rfl⟩
  · intro pre ev post e h
    simp at h
  · intro e h
    simp at h

theorem faithful_stop (w : World) (log : Log) (ev : Event) (e : GoError)
    (he : w.checked_error log ev = some e) (hm : session_ops [ev] = []) :
    Faithful w log [ev] (some (ending_after ev e)) := by
  refine ⟨?_, ?_, hm⟩
  · intro pre ev1 post e1 h h1
    cases pre with
    | nil =>
      simp only [List.nil_append, List.cons.injEq] at h
      obtain ⟨rfl, rfl⟩ := h
      simp only [List.append_nil] at h1
      rw [he] at h1
      cases h1
      exact ⟨rfl, rfl⟩
    | cons x xs =>
      simp at h
  · intro e1 h1
    refine ⟨[], ev, rfl, ?_, ?_⟩
    · simp only [List.append_nil, he]
      cases ev <;> simp_all [ending_after]
    · cases ev <;> simp_all [ending_after]

theorem session_ops_append (a b : Log) : session_ops (a ++ b) = session_ops a ++ session_ops b := by
  simp [session_ops, List.filter_append]

theorem faithful_append (w : World) (log new1 new2 : Log) (out : Option (Outcome String))
    (h1 : Faithful w log new1 none) (h2 : Faithful w (log ++ new1) new2 out) :
    Faithful w log (new1 ++ new2) out := by
  obtain ⟨c1, _, m1⟩ := h1
  obtain ⟨c2, p2, m2⟩ := h2
  refine ⟨?_, ?_, by rw [session_ops_append, m1, m2]; rfl⟩
  · intro pre ev post e h he
    rcases List.append_eq_append_iff.1 h with ⟨a, rfl, ha⟩ | ⟨c, hc, hd⟩
    · exact c2 a ev post e ha (by rw [List.append_assoc]; exact he)
    · cases c with
      | nil =>
        simp only [List.append_nil] at hc
        simp only [List.nil_append] at hd
        subst hc
        exact c2 [] ev post e hd.symm (by simpa using he)
      | cons x xs =>
        simp only [List.cons_append, List.cons.injEq] at hd
        obtain ⟨rfl, _⟩ := hd
        have := (c1 pre ev xs e hc he).2
        simp at this
  · intro e he
    obtain ⟨pre, ev, hn, hc, hp⟩ := p2 e he
    exact ⟨new1 ++ pre, ev, by rw [hn, List.append_assoc], by rw [← List.append_assoc]; exact hc, hp⟩

theorem faithful_step (w : World) (log new : Log) (ev : Event) (out : Option (Outcome String))
    (he : w.checked_error log ev = none) (hm : session_ops [ev] = [])
    (h : Faithful w (log ++ [ev]) new out) : Faithful w log (ev :: new) out := by
  have h1 : Faithful w log [ev] none := by
    refine ⟨?_, ?_, hm⟩
    · intro pre ev1 post e1 hx h1
      cases pre with
      | nil =>
        simp only [List.nil_append, List.cons.injEq] at hx
        obtain ⟨rfl, rfl⟩ := hx
        simp only [List.append_nil] at h1
        rw [he] at h1
        cases h1
      | cons x xs => simp at hx
    · intro e hx
      simp at hx
  exact faithful_append w log [ev] new out h1 h

theorem put_files_faithful (w : World) (ftp : Handle) :
    ∀ (fs : List String) (log : Log), ∃ new,
      (put_files w ftp fs log).1 = log ++ new ∧
      Faithful w log new ((put_files w ftp fs log).2.map Outcome.ret)
  | [], log => ⟨[], by simp [put_files], by simpa [put_files] using faithful_nil w log⟩
  | f :: fs, log => by
    cases hO : (w.Open log f).2 with
    | some e =>
      simp only [put_files, hO, Option.map]
      refine ⟨[Event.Open f], rfl, ?_⟩
      exact faithful_stop w log (Event.Open f) e (by simpa [World.checked_error] using hO) rfl
    | none =>
      cases hS : w.Stor (log ++ [Event.Open f] ++ [Event.Println ("\tputting " ++ f)]) ftp f
          (w.Open log f).1 with
      | some e =>
        simp only [put_files, hO, hS, Option.map]
        refine ⟨[Event.Open f, Event.Println ("\tputting " ++ f),
          Event.Stor ftp f (w.Open log f).1], by simp, ?_⟩
        refine faithful_step w log _ _ _ (by simpa [World.checked_error] using hO) rfl ?_
        refine faithful_step w _ _ _ _ rfl rfl ?_
        exact faithful_stop w _ (Event.Stor ftp f (w.Open log f).1) e
          (by simpa [World.checked_error] using hS) rfl
      | none =>
        obtain ⟨new, h1, h2⟩ := put_files_faithful w ftp fs
          (log ++ [Event.Open f] ++ [Event.Println ("\tputting " ++ f)] ++
            [Event.Stor ftp f (w.Open log f).1])
        simp only [put_files, hO, hS]
        refine ⟨Event.Open f :: Event.Println ("\tputting " ++ f) ::
          Event.Stor ftp f (w.Open log f).1 :: new, by rw [h1]; simp, ?_⟩
        refine faithful_step w log _ _ _ (by simpa [World.checked_error] using hO) rfl ?_
        refine faithful_step w _ _ _ _ rfl rfl ?_
        exact faithful_step w _ _ _ _ (by simpa [World.checked_error] using hS) rfl h2

theorem put_pargs_faithful (w : World) (ftp : Handle) :
    ∀ (pargs : List String) (log : Log), ∃ new,
      (put_pargs w ftp pargs log).1 = log ++ new ∧
      Faithful w log new ((put_pargs w ftp pargs log).2.map Outcome.ret)
  | [], log => ⟨[], by simp [put_pargs], by simpa [put_pargs] using faithful_nil w log⟩
  | parg :: rest, log => by
    by_cases hp : parg = ""
    · simp only [put_pargs, if_pos hp, Option.map]
      exact ⟨[], by simp, faithful_return w log _⟩
    · cases hG : (w.Glob log parg).2 with
      | some e =>
        simp only [put_pargs, if_neg hp, hG, Option.map]
        exact ⟨[Event.Glob parg], rfl,
          faithful_stop w log (Event.Glob parg) e (by simpa [World.checked_error] using hG) rfl⟩
      | none =>
        have hG1 : w.checked_error log (Event.Glob parg) = none := by
          simpa [World.checked_error] using hG
        obtain ⟨new1, h1, h2⟩ :=
          put_files_faithful w ftp (w.Glob log parg).1 (log ++ [Event.Glob parg])
        cases hF : put_files w ftp (w.Glob log parg).1 (log ++ [Event.Glob parg]) with
        | mk log2 r =>
          rw [hF] at h1 h2
          simp only at h1 h2
          subst h1
          cases r with
          | some text =>
            simp only [put_pargs, if_neg hp, hG, hF, Option.map]
            exact ⟨Event.Glob parg :: new1, by simp,
              faithful_step w log _ _ _ hG1 rfl h2⟩
          | none =>
            obtain ⟨new2, h3, h4⟩ := put_pargs_faithful w ftp rest _
            simp only [put_pargs, if_neg hp, hG, hF]
            refine ⟨Event.Glob parg :: (new1 ++ new2), by rw [h3]; simp, ?_⟩
            refine faithful_step w log _ _ _ hG1 rfl ?_
            exact faithful_append w _ new1 new2 _ h2 h4

theorem Retr_faithful (w : World) (ftp : Handle) (p : String) (log : Log) :
    ∃ new, (Retr w ftp p log).1 = log ++ new ∧
      Faithful w log new (panic_only (Retr w ftp p log).2) := by
  cases hR : w.Retr log ftp p with
  | fails e =>
    simp only [Retr, hR, panic_only]
    exact ⟨[Event.Retr ftp p], rfl, faithful_step w log [] _ _ rfl rfl (faithful_nil w _)⟩
  | runs rd =>
    cases hA : (w.ReadAll (log ++ [Event.Retr ftp p]) rd).2 with
    | some e =>
      simp only [Retr, hR, retr_callback, hA, panic_only]
      refine ⟨[Event.Retr ftp p, Event.ReadAll rd], by simp, ?_⟩
      refine faithful_step w log _ _ _ rfl rfl ?_
      exact faithful_stop w _ (Event.ReadAll rd) e (by simpa [World.checked_error] using hA) rfl
    | none =>
      simp only [Retr, hR, retr_callback, hA, panic_only]
      refine ⟨[Event.Retr ftp p, Event.ReadAll rd,
        Event.WriteFile p (w.ReadAll (log ++ [Event.Retr ftp p]) rd).1 ModePerm], by simp, ?_⟩
      refine faithful_step w log _ _ _ rfl rfl ?_
      refine faithful_step w _ _ _ _ (by simpa [World.checked_error] using hA) rfl ?_
      exact faithful_step w _ [] _ _ rfl rfl (faithful_nil w _)

theorem get_files_faithful (w : World) (ftp : Handle) :
    ∀ (fs : List String) (log : Log), ∃ new,
      (get_files w ftp fs log).1 = log ++ new ∧
      Faithful w log new (panic_only (get_files w ftp fs log).2)
  | [], log => ⟨[], by simp [get_files], by simpa [get_files, panic_only] using faithful_nil w log⟩
  | f :: fs, log => by
    obtain ⟨new1, h1, h2⟩ :=
      Retr_faithful w ftp (listed_name f) (log ++ [Event.Println ("\tgetting " ++ listed_name f)])
    cases hR : Retr w ftp (listed_name f)
        (log ++ [Event.Println ("\tgetting " ++ listed_name f)]) with
    | mk log2 r =>
      rw [hR] at h1 h2
      simp only at h1 h2
      subst h1
      cases r with
      | panic e =>
        simp only [get_files, hR]
        exact ⟨Event.Println ("\tgetting " ++ listed_name f) :: new1, by simp,
          faithful_step w log _ _ _ rfl rfl h2⟩
      | ret x =>
        obtain ⟨new2, h3, h4⟩ := get_files_faithful w ftp fs _
        simp only [get_files, hR]
        refine ⟨Event.Println ("\tgetting " ++ listed_name f) :: (new1 ++ new2),
          by rw [h3]; simp, ?_⟩
        refine faithful_step w log _ _ _ rfl rfl ?_
        exact faithful_append w _ new1 new2 _ h2 h4

theorem get_pargs_faithful (w : World) (ftp : Handle) :
    ∀ (pargs : List String) (log : Log), ∃ new,
      (get_pargs w ftp pargs log).1 = log ++ new ∧
      Faithful w log new (early (get_pargs w ftp pargs log).2)
  | [], log => ⟨[], by simp [get_pargs], by simpa [get_pargs, early] using faithful_nil w log⟩
  | parg :: rest, log => by
    cases hL : (w.List log ftp parg).2 with
    | some e =>
      simp only [get_pargs, hL, early]
      exact ⟨[Event.List ftp parg], rfl,
        faithful_stop w log (Event.List ftp parg) e (by simpa [World.checked_error] using hL) rfl⟩
    | none =>
      have hL1 : w.checked_error log (Event.List ftp parg) = none := by
        simpa [World.checked_error] using hL
      obtain ⟨new1, h1, h2⟩ :=
        get_files_faithful w ftp (w.List log ftp parg).1 (log ++ [Event.List ftp parg])
      cases hF : get_files w ftp (w.List log ftp parg).1 (log ++ [Event.List ftp parg]) with
      | mk log2 r =>
        rw [hF] at h1 h2
        simp only at h1 h2
        subst h1
        cases r with
        | panic e =>
          simp only [get_pargs, hL, hF, early]
          exact ⟨Event.List ftp parg :: new1, by simp,
            faithful_step w log _ _ _ hL1 rfl h2⟩
        | ret x =>
          obtain ⟨new2, h3, h4⟩ := get_pargs_faithful w ftp rest _
          simp only [get_pargs, hL, hF]
          refine ⟨Event.List ftp parg :: (new1 ++ new2), by rw [h3]; simp, ?_⟩
          refine faithful_step w log _ _ _ hL1 rfl ?_
          exact faithful_append w _ new1 new2 _ h2 h4

theorem action_BAD (w : World) (s : State) (arg : String) :
    action w s BAD arg = (s, .ret "Don't know that!") := rfl

theorem action_PWD (w : World) (s : State) (arg : String) :
    action w s PWD arg = (s, .ret s.ctx.last_dir) := rfl

theorem action_CD (w : World) (s : State) (arg : String) :
    action w s CD arg =
      match w.Cwd s.log s.ctx.ftp (if arg = "" then "~" else arg) with
      | some e =>
        ({ s with log := s.log ++ [Event.Cwd s.ctx.ftp (if arg = "" then "~" else arg)] },
          .ret e.Error)
      | none =>
        match (w.Pwd (s.log ++ [Event.Cwd s.ctx.ftp (if arg = "" then "~" else arg)])
            s.ctx.ftp).2 with
        | some e =>
          ({ ctx := { s.ctx with last_dir :=
                (w.Pwd (s.log ++ [Event.Cwd s.ctx.ftp (if arg = "" then "~" else arg)])
                  s.ctx.ftp).1 },
             log := s.log ++ [Event.Cwd s.ctx.ftp (if arg = "" then "~" else arg)] ++
                [Event.Pwd s.ctx.ftp] }, .panic e)
        | none =>
          ({ ctx := { s.ctx with last_dir :=
                (w.Pwd (s.log ++ [Event.Cwd s.ctx.ftp (if arg = "" then "~" else arg)])
                  s.ctx.ftp).1 },
             log := s.log ++ [Event.Cwd s.ctx.ftp (if arg = "" then "~" else arg)] ++
                [Event.Pwd s.ctx.ftp] }, .ret "") := rfl

theorem action_LS (w : World) (s : State) (arg : String) :
    action w s LS arg =
      match (w.List s.log s.ctx.ftp (if arg = "" then "." else arg)).2 with
      | some e =>
        ({ s with log := s.log ++ [Event.List s.ctx.ftp (if arg = "" then "." else arg)] },
          .ret e.Error)
      | none =>
        ({ s with log := s.log ++ [Event.List s.ctx.ftp (if arg = "" then "." else arg)] },
          .ret (strings.Join (w.List s.log s.ctx.ftp (if arg = "" then "." else arg)).1 "")) :=
  rfl

theorem action_PUT (w : World) (s : State) (arg : String) :
    action w s PUT arg =
      if arg = "" then (s, .ret "No arguments")
      else
        match put_pargs w s.ctx.ftp (strings.Split arg ' ') s.log with
        | (log1, some text) => ({ s with log := log1 }, .ret text)
        | (log1, none) => ({ s with log := log1 }, .ret "") := rfl

theorem action_GET (w : World) (s : State) (arg : String) :
    action w s GET arg =
      if arg = " " then (s, .ret "No arguments")
      else
        match get_pargs w s.ctx.ftp (strings.Split arg ' ') s.log with
        | (log1, .panic e) => ({ s with log := log1 }, .panic e)
        | (log1, .ret (some text)) => ({ s with log := log1 }, .ret text)
        | (log1, .ret none) => ({ s with log := log1 }, .ret "") := rfl

theorem action_other (w : World) (s : State) (code : Int) (arg : String)
    (h0 : code ≠ BAD) (h1 : code ≠ PWD) (h2 : code ≠ CD) (h3 : code ≠ LS) (h4 : code ≠ PUT)
    (h5 : code ≠ GET) : action w s code arg = (s, .ret "") := by
  simp only [action, if_neg h0, if_neg h1, if_neg h2, if_neg h3, if_neg h4, if_neg h5]

theorem faithful_quiet (w : World) (log : Log) (ev : Event) (out : Outcome String)
    (he : w.checked_error log ev = none) (hm : session_ops [ev] = []) (ho : ∀ e, out ≠ .panic e) :
    Faithful w log [ev] (some out) := by
  refine ⟨?_, ?_, hm⟩
  · intro pre ev1 post e1 hx h1
    cases pre with
    | nil =>
      simp only [List.nil_append, List.cons.injEq] at hx
      obtain ⟨rfl, rfl⟩ := hx
      simp only [List.append_nil] at h1
      rw [he] at h1
      cases h1
    | cons x xs => simp at hx
  · intro e hx
    exact absurd (Option.some.inj hx) (ho e)

/-- Every run of `action` extends the log by a stretch of calls that treats
errors faithfully, and leaves the timer alone. -/
theorem action_faithful (w : World) (s : State) (code : Int) (arg : String) :
    ∃ new, (action w s code arg).1.log = s.log ++ new ∧
      Faithful w s.log new (some (action w s code arg).2) ∧
      (action w s code arg).1.ctx.timer = s.ctx.timer := by
  by_cases h0 : code = BAD
  · subst h0
    exact ⟨[], by simp [action_BAD], by rw [action_BAD]; exact faithful_return w _ _, rfl⟩
  by_cases h1 : code = PWD
  · subst h1
    exact ⟨[], by simp [action_PWD], by rw [action_PWD]; exact faithful_return w _ _, rfl⟩
  by_cases h2 : code = CD
  · subst h2
    rw [action_CD]
    cases hC : w.Cwd s.log s.ctx.ftp (if arg = "" then "~" else arg) with
    | some e =>
      exact ⟨[Event.Cwd s.ctx.ftp (if arg = "" then "~" else arg)], rfl,
        faithful_stop w _ (Event.Cwd _ _) e (by simpa [World.checked_error] using hC) rfl, rfl⟩
    | none =>
      cases hP : (w.Pwd (s.log ++ [Event.Cwd s.ctx.ftp (if arg = "" then "~" else arg)])
          s.ctx.ftp).2 with
      | some e =>
        refine ⟨[Event.Cwd s.ctx.ftp (if arg = "" then "~" else arg), Event.Pwd s.ctx.ftp],
          by simp, ?_, rfl⟩
        refine faithful_step w _ _ _ _ (by simpa [World.checked_error] using hC) rfl ?_
        exact faithful_stop w _ (Event.Pwd _) e (by simpa [World.checked_error] using hP) rfl
      | none =>
        refine ⟨[Event.Cwd s.ctx.ftp (if arg = "" then "~" else arg), Event.Pwd s.ctx.ftp],
          by simp, ?_, rfl⟩
        refine faithful_step w _ _ _ _ (by simpa [World.checked_error] using hC) rfl ?_
        exact faithful_quiet w _ _ _ (by simpa [World.checked_error] using hP) rfl (by simp)
  by_cases h3 : code = LS
  · subst h3
    rw [action_LS]
    cases hL : (w.List s.log s.ctx.ftp (if arg = "" then "." else arg)).2 with
    | some e =>
      exact ⟨[Event.List s.ctx.ftp (if arg = "" then "." else arg)], rfl,
        faithful_stop w _ (Event.List _ _) e (by simpa [World.checked_error] using hL) rfl, rfl⟩
    | none =>
      exact ⟨[Event.List s.ctx.ftp (if arg = "" then "." else arg)], rfl,
        faithful_quiet w _ _ _ (by simpa [World.checked_error] using hL) rfl (by simp), rfl⟩
  by_cases h4 : code = PUT
  · subst h4
    rw [action_PUT]
    by_cases harg : arg = ""
    · rw [if_pos harg]
      exact ⟨[], by simp, faithful_return w _ _, rfl⟩
    · rw [if_neg harg]
      obtain ⟨new, h1, h2⟩ := put_pargs_faithful w s.ctx.ftp (strings.Split arg ' ') s.log
      cases hF : put_pargs w s.ctx.ftp (strings.Split arg ' ') s.log with
      | mk log2 r =>
        rw [hF] at h1 h2
        simp only at h1 h2
        subst h1
        cases r with
        | some text => exact ⟨new, rfl, h2, rfl⟩
        | none =>
          refine ⟨new, rfl, ⟨?_, ?_, h2.2.2⟩, rfl⟩
          · intro pre ev post e hx he
            have := (h2.1 pre ev post e hx he).2
            simp at this
          · intro e hx
            simp at hx
  by_cases h5 : code = GET
  · subst h5
    rw [action_GET]
    by_cases harg : arg = " "
    · rw [if_pos harg]
      exact ⟨[], by simp, faithful_return w _ _, rfl⟩
    · rw [if_neg harg]
      obtain ⟨new, h1, h2⟩ := get_pargs_faithful w s.ctx.ftp (strings.Split arg ' ') s.log
      cases hF : get_pargs w s.ctx.ftp (strings.Split arg ' ') s.log with
      | mk log2 r =>
        rw [hF] at h1 h2
        simp only at h1 h2
        subst h1
        cases r with
        | panic e => exact ⟨new, rfl, h2, rfl⟩
        | ret o =>
          cases o with
          | some text => exact ⟨new, rfl, h2, rfl⟩
          | none =>
            refine ⟨new, rfl, ⟨?_, ?_, h2.2.2⟩, rfl⟩
            · intro pre ev post e hx he
              have := (h2.1 pre ev post e hx he).2
              simp [early] at this
            · intro e hx
              simp at hx
  · rw [action_other w s code arg h0 h1 h2 h3 h4 h5]
    exact ⟨[], by simp, faithful_return w _ _, rfl⟩

theorem action_panic_code (w : World) (s : State) (code : Int) (arg : String) (e : GoError)
    (h : (action w s code arg).2 = .panic e) : code = CD ∨ code = GET := by
  by_cases h2 : code = CD
  · exact Or.inl h2
  by_cases h5 : code = GET
  · exact Or.inr h5
  exfalso
  by_cases h0 : code = BAD
  · subst h0
    simp [action_BAD] at h
  by_cases h1 : code = PWD
  · subst h1
    simp [action_PWD] at h
  by_cases h3 : code = LS
  · subst h3
    rw [action_LS] at h
    cases hL : (w.List s.log s.ctx.ftp (if arg = "" then "." else arg)).2 <;>
      simp [hL] at h
  by_cases h4 : code = PUT
  · subst h4
    rw [action_PUT] at h
    by_cases harg : arg = ""
    · simp [harg] at h
    · rw [if_neg harg] at h
      cases hF : put_pargs w s.ctx.ftp (strings.Split arg ' ') s.log with
      | mk log2 r =>
        rw [hF] at h
        cases r <;> simp at h
  · simp [action_other w s code arg h0 h1 h2 h3 h4 h5] at h

theorem ending_after_panic (ev : Event) (e e1 : GoError) (h : ending_after ev e = .panic e1) :
    (∃ ftp, ev = Event.Pwd ftp) ∨ (∃ rd, ev = Event.ReadAll rd) := by
  cases ev <;> simp_all [ending_after]

theorem split_after_start (log new pre post : Log) (ev : Event)
    (h : log ++ new = pre ++ ev :: post) (hlen : log.length ≤ pre.length) :
    ∃ mid, pre = log ++ mid ∧ new = mid ++ ev :: post := by
  rcases List.append_eq_append_iff.1 h with ⟨a, ha, hb⟩ | ⟨c, hc, hd⟩
  · exact ⟨a, ha, hb⟩
  · have hl : c = [] := by
      have := congrArg List.length hc
      simp only [List.length_append] at this
      exact List.eq_nil_of_length_eq_zero (by omega)
    subst hl
    simp only [List.append_nil] at hc
    simp only [List.nil_append] at hd
    exact ⟨[], by simp [hc], by simp [hd]⟩

/-- C3: when the remote change-directory call of `action(CD, arg)` returns the
error `e`, `action` returns the text of `e`, the cached directory `last_dir`
(indeed the whole context) is as before, and the only call made is that one
change-directory call: the remote current-directory query is not invoked. -/
theorem C3_cd_failure_keeps_cached_directory (w : World) (s : State) (arg : String)
    (e : GoError)
    (hcwd : w.Cwd s.log s.ctx.ftp (if arg = "" then "~" else arg) = some e) :
    (action w s CD arg).2 = .ret e.Error ∧
    (action w s CD arg).1.ctx.last_dir = s.ctx.last_dir ∧
    (action w s CD arg).1.ctx = s.ctx ∧
    ∃ new, (action w s CD arg).1.log = s.log ++ new ∧
      new = [Event.Cwd s.ctx.ftp (if arg = "" then "~" else arg)] ∧
      ∀ ftp, Event.Pwd ftp ∉ new := by
  rw [action_CD, hcwd]
  exact ⟨rfl, rfl, rfl, _, rfl, rfl, by simp⟩

theorem C3_cd_failure_keeps_cached_directory_witness :
    no_such_directory.Cwd session.log session.ctx.ftp "nowhere" =
      some { Error := "550 No such directory" } ∧
    (action no_such_directory session CD "nowhere").2 = .ret "550 No such directory" ∧
    (action no_such_directory session CD "nowhere").1.ctx.last_dir = "/pub" :=
  ⟨rfl,
   (C3_cd_failure_keeps_cached_directory no_such_directory session "nowhere"
      { Error := "550 No such directory" } rfl).1,
   (C3_cd_failure_keeps_cached_directory no_such_directory session "nowhere"
      { Error := "550 No such directory" } rfl).2.1⟩

/-- C4: when the remote change-directory call of `action(CD, arg)` succeeds and
the current-directory query that follows returns `d`, then afterwards the
cached directory `last_dir` is `d` whatever it was before, the calls made are
the change-directory call, with `arg` or with `~` when `arg` is empty, and
then the query, and a subsequent `action(PWD, _)` returns `d`. -/
theorem C4_cd_success_caches_queried_directory (w : World) (s : State) (arg d : String)
    (hcwd : w.Cwd s.log s.ctx.ftp (if arg = "" then "~" else arg) = none)
    (hpwd : w.Pwd (s.log ++ [Event.Cwd s.ctx.ftp (if arg = "" then "~" else arg)]) s.ctx.ftp
      = (d, none)) :
    (action w s CD arg).1.ctx.last_dir = d ∧
    (action w s CD arg).1.log =
      s.log ++ [Event.Cwd s.ctx.ftp (if arg = "" then "~" else arg), Event.Pwd s.ctx.ftp] ∧
    (arg = "" → (action w s CD arg).1.log =
      s.log ++ [Event.Cwd s.ctx.ftp "~", Event.Pwd s.ctx.ftp]) ∧
    (arg ≠ "" → (action w s CD arg).1.log =
      s.log ++ [Event.Cwd s.ctx.ftp arg, Event.Pwd s.ctx.ftp]) ∧
    ∀ arg1, (action w (action w s CD arg).1 PWD arg1).2 = .ret d := by
  have hq : (w.Pwd (s.log ++ [Event.Cwd s.ctx.ftp (if arg = "" then "~" else arg)])
      s.ctx.ftp).2 = none := by rw [hpwd]
  have hd : (w.Pwd (s.log ++ [Event.Cwd s.ctx.ftp (if arg = "" then "~" else arg)])
      s.ctx.ftp).1 = d := by rw [hpwd]
  have hlog : (action w s CD arg).1.log =
      s.log ++ [Event.Cwd s.ctx.ftp (if arg = "" then "~" else arg), Event.Pwd s.ctx.ftp] := by
    rw [action_CD, hcwd]
    simp only [hq]
    simp
  have hdir : (action w s CD arg).1.ctx.last_dir = d := by
    rw [action_CD, hcwd]
    simp only [hq]
    exact hd
  refine ⟨hdir, hlog, ?_, ?_, fun arg1 => by rw [action_PWD, hdir]⟩
  · intro h
    rw [hlog, if_pos h]
  · intro h
    rw [hlog, if_neg h]

theorem C4_cd_success_caches_queried_directory_witness :
    moved.Cwd session.log session.ctx.ftp "~" = none ∧
    moved.Pwd (session.log ++ [Event.Cwd session.ctx.ftp "~"]) session.ctx.ftp
      = ("/pub/incoming", none) ∧
    session.ctx.last_dir = "/pub" ∧
    (action moved session CD "").1.ctx.last_dir = "/pub/incoming" ∧
    (action moved session CD "").1.log = [Event.Cwd (some 1) "~", Event.Pwd (some 1)] ∧
    (action moved (action moved session CD "").1 PWD "").2 = .ret "/pub/incoming" :=
  ⟨rfl, rfl, rfl,
   (C4_cd_success_caches_queried_directory moved session "" "/pub/incoming" rfl rfl).1,
   (C4_cd_success_caches_queried_directory moved session "" "/pub/incoming" rfl rfl).2.1,
   (C4_cd_success_caches_queried_directory moved session "" "/pub/incoming" rfl rfl).2.2.2.2 ""⟩

/-- C5 (as stated, refuted): every remote call succeeds or returns an error,
the change of directory succeeds, the current-directory query that follows
returns an error, and `action(CD, "incoming")` panics with that error instead
of returning its text. -/
theorem C5_action_panics_when_pwd_fails :
    pwd_broken.Cwd session.log session.ctx.ftp "incoming" = none ∧
    (pwd_broken.Pwd (session.log ++ [Event.Cwd session.ctx.ftp "incoming"]) session.ctx.ftp).2
      = some { Error := "421 Service not available" } ∧
    (action pwd_broken session CD "incoming").2
      = .panic { Error := "421 Service not available" } ∧
    ¬ ∃ text, (action pwd_broken session CD "incoming").2 = .ret text := by
  refine ⟨rfl, rfl, by decide, ?_⟩
  rintro ⟨text, h⟩
  have h1 : (action pwd_broken session CD "incoming").2
      = .panic { Error := "421 Service not available" } := by decide
  rw [h1] at h
  cases h

/-- C5 (amended): for every verb, argument, session state and behaviour of the
outside world in which each call succeeds or returns an error, `action` ends,
either by returning a result string or by panicking.  It panics only for the
verbs `cd` and `get`, and only when a current-directory query (`Pwd`) or the
reading of retrieved data (`ReadAll`) returned an error, which is then the
last call made and the value of the panic; so it returns a string whenever no
such call fails.  An error returned by any call of `Cwd`, `List`, `Glob`,
`Open` or `Stor` made by `action` ends `action` at once: that call is the last
one and the result is the text of the error. -/
theorem C5_action_ends_and_reports_checked_errors (w : World) (s : State) (code : Int)
    (arg : String) :
    ((∃ text, (action w s code arg).2 = .ret text) ∨
      (∃ e, (action w s code arg).2 = .panic e)) ∧
    (∀ e, (action w s code arg).2 = .panic e →
      (code = CD ∨ code = GET) ∧
      ∃ pre ev, (action w s code arg).1.log = pre ++ [ev] ∧ s.log.length ≤ pre.length ∧
        ((∃ ftp, ev = Event.Pwd ftp) ∨ (∃ rd, ev = Event.ReadAll rd)) ∧
        w.checked_error pre ev = some e) ∧
    ((∀ log ftp, (w.Pwd log ftp).2 = none) → (∀ log rd, (w.ReadAll log rd).2 = none) →
      ∃ text, (action w s code arg).2 = .ret text) ∧
    (∀ pre ev post e, (action w s code arg).1.log = pre ++ ev :: post →
      s.log.length ≤ pre.length → w.checked_error pre ev = some e →
      post = [] ∧ (action w s code arg).2 = ending_after ev e) := by
  obtain ⟨new, hlog, ⟨hc, hp, _⟩, _⟩ := action_faithful w s code arg
  have hpanic : ∀ e, (action w s code arg).2 = .panic e →
      (code = CD ∨ code = GET) ∧
      ∃ pre ev, (action w s code arg).1.log = pre ++ [ev] ∧ s.log.length ≤ pre.length ∧
        ((∃ ftp, ev = Event.Pwd ftp) ∨ (∃ rd, ev = Event.ReadAll rd)) ∧
        w.checked_error pre ev = some e := by
    intro e he
    obtain ⟨pre, ev, hn, hce, hen⟩ := hp e (by rw [he])
    refine ⟨action_panic_code w s code arg e he, s.log ++ pre, ev, ?_, by simp,
      ending_after_panic ev e e hen, hce⟩
    rw [hlog, hn, List.append_assoc]
  refine ⟨?_, hpanic, ?_, ?_⟩
  · cases h : (action w s code arg).2 with
    | ret text => exact Or.inl ⟨text, rfl⟩
    | panic e => exact Or.inr ⟨e, rfl⟩
  · intro hPwd hRead
    cases h : (action w s code arg).2 with
    | ret text => exact ⟨text, rfl⟩
    | panic e =>
      obtain ⟨_, pre, ev, _, _, hev, hce⟩ := hpanic e h
      rcases hev with ⟨ftp, rfl⟩ | ⟨rd, rfl⟩
      · simp [World.checked_error, hPwd] at hce
      · simp [World.checked_error, hRead] at hce
  · intro pre ev post e hx hlen hce
    rw [hlog] at hx
    obtain ⟨mid, rfl, hnew⟩ := split_after_start s.log new pre post ev hx hlen
    obtain ⟨h1, h2⟩ := hc mid ev post e hnew hce
    exact ⟨h1, Option.some.inj h2⟩

theorem C5_action_ends_and_reports_checked_errors_witness :
    (action pwd_broken session CD "incoming").2
      = .panic { Error := "421 Service not available" } ∧
    ((CD = CD ∨ CD = GET) ∧
      ∃ pre ev, (action pwd_broken session CD "incoming").1.log = pre ++ [ev] ∧
        session.log.length ≤ pre.length ∧
        ((∃ ftp, ev = Event.Pwd ftp) ∨ (∃ rd, ev = Event.ReadAll rd)) ∧
        pwd_broken.checked_error pre ev = some { Error := "421 Service not available" }) ∧
    (∃ text, (action calm session LS "").2 = .ret text) :=
  ⟨by decide,
   (C5_action_ends_and_reports_checked_errors pwd_broken session CD "incoming").2.1
     { Error := "421 Service not available" } (by decide),
   (C5_action_ends_and_reports_checked_errors calm session LS "").2.2.1
     (fun _ _ => rfl) (fun _ _ => rfl)⟩

/-- C6 (the code departs from the claim): the listing for `*.txt` names
`a.txt` and `b.txt`, and retrieving `a.txt` fails with an error.  Line 240
drops what `Retr` returns, so `b.txt` is retrieved all the same and `action`
returns the empty string, not the text of the error.  The same happens when
it is the write of the local file that fails: the callback returns the error
to `Retr`, and the caller drops it. -/
theorem C6_get_continues_after_failed_retrieve :
    retr_broken.Retr [Event.List (some 1) "*.txt", Event.Println "\tgetting a.txt"] (some 1)
      "a.txt" = .fails { Error := "550 Permission denied" } ∧
    action retr_broken session GET "*.txt" =
      ({ session with log :=
          [Event.List (some 1) "*.txt",
           Event.Println "\tgetting a.txt", Event.Retr (some 1) "a.txt",
           Event.Println "\tgetting b.txt", Event.Retr (some 1) "b.txt",
           Event.ReadAll 7, Event.WriteFile "b.txt" [] ModePerm] },
       .ret "") ∧
    disk_full.WriteFile [Event.List (some 1) "*.txt", Event.Println "\tgetting a.txt",
      Event.Retr (some 1) "a.txt", Event.ReadAll 7] "a.txt" [] ModePerm
      = some { Error := "no space left on device" } ∧
    action disk_full session GET "*.txt" =
      ({ session with log :=
          [Event.List (some 1) "*.txt",
           Event.Println "\tgetting a.txt", Event.Retr (some 1) "a.txt",
           Event.ReadAll 7, Event.WriteFile "a.txt" [] ModePerm,
           Event.Println "\tgetting b.txt", Event.Retr (some 1) "b.txt",
           Event.ReadAll 7, Event.WriteFile "b.txt" [] ModePerm] },
       .ret "") := by
  decide

/-- C8: `action(PUT, "")` returns the fixed text `No arguments` and leaves the
state as it was: the context is unchanged and the log has gained no call, so
there was no store, no glob expansion and no file open. -/
theorem C8_put_without_argument (w : World) (s : State) :
    action w s PUT "" = (s, .ret "No arguments") ∧
    (action w s PUT "").1.ctx = s.ctx ∧
    (action w s PUT "").1.log = s.log := by
  rw [action_PUT]
  exact ⟨rfl, rfl, rfl⟩

/-- C10 (as stated, refuted): the line made of `get` and two spaces parses to
`(GET, " ")`, and fed to `action` it meets the guard: the result is
`No arguments` and no call is made. -/
theorem C10_get_guard_reached_through_parse :
    parse "get  " = (GET, " ") ∧
    action calm session (parse "get  ").1 (parse "get  ").2 = (session, .ret "No arguments") := by
  decide

theorem get_pargs_first_call (w : World) (ftp : Handle) (parg : String) (rest : List String)
    (log : Log) :
    ∃ more, (get_pargs w ftp (parg :: rest) log).1 = log ++ Event.List ftp parg :: more := by
  cases hL : (w.List log ftp parg).2 with
  | some e =>
    simp only [get_pargs, hL]
    exact ⟨[], rfl⟩
  | none =>
    obtain ⟨new1, h1, _⟩ :=
      get_files_faithful w ftp (w.List log ftp parg).1 (log ++ [Event.List ftp parg])
    cases hF : get_files w ftp (w.List log ftp parg).1 (log ++ [Event.List ftp parg]) with
    | mk log2 r =>
      rw [hF] at h1
      simp only at h1
      subst h1
      cases r with
      | panic e =>
        simp only [get_pargs, hL, hF]
        exact ⟨new1, by simp⟩
      | ret x =>
        obtain ⟨new2, h3, _⟩ := get_pargs_faithful w ftp rest
          (log ++ [Event.List ftp parg] ++ new1)
        simp only [get_pargs, hL, hF]
        exact ⟨new1 ++ new2, by rw [h3]; simp⟩

/-- C10 (amended): the empty-argument guard of `get` is reached through
parsing by exactly one line: `parse(line) = (GET, " ")` holds if and only if
the line is `get` followed by two spaces, and for that argument `action`
returns `No arguments` without making a call.  The line `get` parses to
`(GET, "")`, which the guard does not block: the first call `action` then
makes is the remote list call with the empty pattern. -/
theorem C10_get_guard_reached_by_one_line_only :
    (∀ line, parse line = (GET, " ") ↔ line = "get  ") ∧
    (∀ w s, action w s GET " " = (s, .ret "No arguments")) ∧
    parse "get" = (GET, "") ∧
    (∀ w s, ∃ more, (action w s GET "").1.log = s.log ++ Event.List s.ctx.ftp "" :: more) := by
  refine ⟨parse_eq_GET_space, fun w s => by rw [action_GET]; rfl, by decide, ?_⟩
  intro w s
  obtain ⟨more, h⟩ := get_pargs_first_call w s.ctx.ftp "" [] s.log
  have hs : strings.Split "" ' ' = [""] := by decide
  have hne : ¬ ("" : String) = " " := by decide
  rw [action_GET, if_neg hne, hs]
  refine ⟨more, ?_⟩
  rw [← h]
  cases get_pargs w s.ctx.ftp [""] s.log with
  | mk log2 r =>
    cases r with
    | panic e => rfl
    | ret o => cases o <;> rfl

/-! ## The idle timer -/

theorem zero_armed_when_active : command_timer.zero.armed_when_active := by
  intro h
  cases h

theorem apply_armed_when_active (ctm : command_timer) (ev : TimerEvent)
    (h : ctm.armed_when_active) :
    ∃ ctm1, ev.apply ctm = some ctm1 ∧ ctm1.armed_when_active := by
  cases ev with
  | init d =>
    refine ⟨ctm.init d, rfl, ?_⟩
    intro hx
    simp [command_timer.init] at hx
  | expire =>
    refine ⟨ctm.expire, rfl, ?_⟩
    intro hx
    simp [command_timer.expire] at hx
  | reset =>
    cases ha : ctm.is_active with
    | true =>
      cases ht : ctm.tmr with
      | none => exact absurd ht (h ha)
      | some t =>
        refine ⟨{ ctm with tmr := some (t.Reset ctm.duration) }, ?_, ?_⟩
        · simp [TimerEvent.apply, command_timer.reset, ha, ht]
        · intro _
          simp
    | false =>
      refine ⟨{ ctm with is_active := true, tmr := some (AfterFunc ctm.duration) }, ?_, ?_⟩
      · simp [TimerEvent.apply, command_timer.reset, ha]
      · intro _
        simp

theorem run_timer_total (evs : List TimerEvent) :
    ∀ ctm : command_timer, ctm.armed_when_active →
      ∃ ctm1, run_timer evs ctm = some ctm1 ∧ ctm1.armed_when_active := by
  induction evs with
  | nil => exact fun ctm h => ⟨ctm, rfl, h⟩
  | cons ev evs ih =>
    intro ctm h
    obtain ⟨c1, h1, h2⟩ := apply_armed_when_active ctm ev h
    obtain ⟨c2, h3, h4⟩ := ih c1 h2
    exact ⟨c2, by simp [run_timer, h1, h3], h4⟩

theorem run_timer_append (a b : List TimerEvent) :
    ∀ ctm : command_timer, run_timer (a ++ b) ctm = (run_timer a ctm).bind (run_timer b) := by
  induction a with
  | nil => intro ctm; rfl
  | cons ev evs ih =>
    intro ctm
    cases h : ev.apply ctm with
    | none => simp [run_timer, h]
    | some c => simp [run_timer, h, ih]

theorem reset_result (ctm ctm1 : command_timer) (h : ctm.reset = some ctm1) :
    ctm1.is_active = true ∧ ctm1.duration = ctm.duration := by
  unfold command_timer.reset at h
  split at h
  · next ha =>
    split at h
    · cases h
    · cases h
      exact ⟨ha, rfl⟩
  · cases h
    exact ⟨rfl, rfl⟩

theorem run_timer_keeps_duration (evs : List TimerEvent)
    (hevs : ∀ ev ∈ evs, ev = .reset ∨ ev = .expire) :
    ∀ ctm ctm1 : command_timer, run_timer evs ctm = some ctm1 → ctm1.duration = ctm.duration := by
  induction evs with
  | nil =>
    intro ctm ctm1 h
    cases h
    rfl
  | cons ev evs ih =>
    intro ctm ctm1 h
    have ih1 := ih (fun x hx => hevs x (List.mem_cons_of_mem _ hx))
    cases ha : ev.apply ctm with
    | none => simp [run_timer, ha] at h
    | some c =>
      simp only [run_timer, ha] at h
      rw [ih1 c ctm1 h]
      rcases hevs ev (List.mem_cons_self _ _) with rfl | rfl
      · exact (reset_result ctm c ha).2
      · cases ha
        rfl

/-- C9: the flag of the idle timer, driven by the events `init(d)`, `reset` and
`expire` from the zero value of the timer.  The flag is false right after
`init(d)`, from any state.  Every sequence of events runs without a panic,
and when its last event is `reset` the flag is true at the end, whatever the
flag was before that `reset`; this holds in particular for every sequence
after an `init` in which no `expire` follows the latest `reset`.  A `reset`
that returns sets the flag and keeps the duration; `expire` changes nothing
but the flag; and after `init(d)` followed by any number of `reset` and
`expire` events the duration is still the one `init(d)` set. -/
theorem C9_idle_timer_flag (before after : List TimerEvent) (d : Int)
    (hafter : ∀ ev ∈ after, ev = .reset ∨ ev = .expire) :
    (∀ ctm : command_timer, (ctm.init d).is_active = false) ∧
    (∃ ctm, run_timer (before ++ [.reset]) command_timer.zero = some ctm ∧
      ctm.is_active = true) ∧
    (∃ ctm, run_timer (before ++ .init d :: after ++ [.reset]) command_timer.zero = some ctm ∧
      ctm.is_active = true ∧ ctm.duration = wrap64 (d * Second)) ∧
    (∀ ctm ctm1 : command_timer, ctm.reset = some ctm1 →
      ctm1.is_active = true ∧ ctm1.duration = ctm.duration) ∧
    (∀ ctm : command_timer, ctm.expire.is_active = false ∧ ctm.expire.tmr = ctm.tmr ∧
      ctm.expire.duration = ctm.duration) ∧
    (∃ ctm, run_timer (before ++ .init d :: after) command_timer.zero = some ctm ∧
      ctm.duration = wrap64 (d * Second)) := by
  have hlast : ∀ evs : List TimerEvent, ∃ ctm,
      run_timer (evs ++ [.reset]) command_timer.zero = some ctm ∧ ctm.is_active = true := by
    intro evs
    obtain ⟨c, hc, _⟩ := run_timer_total (evs ++ [.reset]) _ zero_armed_when_active
    refine ⟨c, hc, ?_⟩
    rw [run_timer_append] at hc
    cases h1 : run_timer evs command_timer.zero with
    | none => simp [h1] at hc
    | some c1 =>
      simp only [h1, Option.bind, run_timer, TimerEvent.apply] at hc
      cases h2 : c1.reset with
      | none => simp [h2] at hc
      | some c2 =>
        simp only [h2, Option.some.injEq] at hc
        subst hc
        exact (reset_result c1 c2 h2).1
  have hdur : ∀ evs : List TimerEvent, (∀ ev ∈ evs, ev = .reset ∨ ev = .expire) →
      ∀ ctm, run_timer (before ++ .init d :: evs) command_timer.zero = some ctm →
        ctm.duration = wrap64 (d * Second) := by
    intro evs hevs ctm hc
    rw [run_timer_append] at hc
    cases h1 : run_timer before command_timer.zero with
    | none => simp [h1] at hc
    | some c1 =>
      simp only [h1, Option.bind, run_timer, TimerEvent.apply] at hc
      rw [run_timer_keeps_duration evs hevs _ ctm hc]
      rfl
  refine ⟨fun ctm => rfl, hlast before, ?_, reset_result, fun ctm => ⟨rfl, rfl, rfl⟩, ?_⟩
  · obtain ⟨c, hc, ha⟩ := hlast (before ++ .init d :: after)
    have hc1 : run_timer (before ++ .init d :: after ++ [.reset]) command_timer.zero = some c :=
      hc
    refine ⟨c, hc1, ha, ?_⟩
    have hc2 : run_timer (before ++ .init d :: (after ++ [.reset])) command_timer.zero
        = some c := by
      rw [← hc1]
      simp
    refine hdur (after ++ [.reset]) ?_ c hc2
    intro ev hev
    rcases List.mem_append.1 hev with h | h
    · exact hafter ev h
    · simp only [List.mem_singleton] at h
      exact Or.inl h
  · obtain ⟨c, hc, _⟩ :=
      run_timer_total (before ++ .init d :: after) _ zero_armed_when_active
    exact ⟨c, hc, hdur after hafter c hc⟩

theorem C9_idle_timer_flag_witness :
    (∀ ev ∈ [TimerEvent.reset, .expire, .reset], ev = .reset ∨ ev = .expire) ∧
    (∃ ctm, run_timer ([.init 1, .reset] ++ .init 300 :: [.reset, .expire, .reset] ++ [.reset])
        command_timer.zero = some ctm ∧
      ctm.is_active = true ∧ ctm.duration = wrap64 (300 * Second)) :=
  ⟨by decide,
   (C9_idle_timer_flag [.init 1, .reset] [.reset, .expire, .reset] 300 (by decide)).2.2.1⟩

/-! ## The REPL driver -/

theorem session_ops_connect_event (b : Bool) (addr : String) :
    session_ops [if b = true then Event.ConnectDbg addr else Event.Connect addr] = [] := by
  cases b <;> rfl

theorem append_three (l : Log) (a b c : Event) : l ++ [a] ++ [b] ++ [c] = l ++ [a, b, c] := by
  simp

theorem session_ops_three (a b c : Event) (ha : session_ops [a] = [])
    (hb : session_ops [b] = []) (hc : session_ops [c] = []) : session_ops [a, b, c] = [] := by
  have e : [a, b, c] = [a] ++ ([b] ++ [c]) := rfl
  rw [e, session_ops_append, session_ops_append, ha, hb, hc]
  rfl

/-- A run of `connect` adds calls on the outside world only, and leaves the
timer alone. -/
theorem connect_frame (w : World) (s : State) :
    ∃ new, (connect w s).1.log = s.log ++ new ∧ session_ops new = [] ∧
      (connect w s).1.ctx.timer = s.ctx.timer := by
  unfold connect
  simp only
  split
  · exact ⟨[_], rfl, session_ops_connect_event _ _, rfl⟩
  · split
    · exact ⟨_, append_three _ _ _ _,
        session_ops_three _ _ _ (session_ops_connect_event _ _) rfl rfl, rfl⟩
    · split
      · exact ⟨_, append_three _ _ _ _,
          session_ops_three _ _ _ (session_ops_connect_event _ _) rfl rfl, rfl⟩
      · split
        · exact ⟨_, append_three _ _ _ _,
            session_ops_three _ _ _ (session_ops_connect_event _ _) rfl rfl, rfl⟩
        · exact ⟨_, append_three _ _ _ _,
            session_ops_three _ _ _ (session_ops_connect_event _ _) rfl rfl, rfl⟩

theorem session_ops_cons_marker (ev : Event) (l : Log) (h : session_ops [ev] = [ev]) :
    session_ops (ev :: l) = ev :: session_ops l := by
  have e : ev :: l = [ev] ++ l := rfl
  rw [e, session_ops_append, h]
  rfl

/-- The part of the loop body after the connection has been looked after:
dispatch and timer reset. -/
theorem dispatch_trace (w : World) (s3 : State) (code : Int) (arg : String) :
    ∃ new,
      (match action w (s3.mark (Event.call_action code arg)) code arg with
        | (s4, .panic e) => (s4, Step.panicked e)
        | (s4, .ret text) =>
          match ((s4.mark (Event.Println text)).mark Event.call_reset).ctx.timer.reset with
          | none => ((s4.mark (Event.Println text)).mark Event.call_reset,
              Step.panicked nil_dereference)
          | some t =>
            ({ (s4.mark (Event.Println text)).mark Event.call_reset with
                ctx := { ((s4.mark (Event.Println text)).mark Event.call_reset).ctx with
                  timer := t } }, Step.next)) = new ∧
      ∃ added, new.1.log = s3.log ++ added ∧
        ((session_ops added = [Event.call_action code arg] ∧ ∃ e, new.2 = .panicked e) ∨
         (session_ops added = [Event.call_action code arg, Event.call_reset] ∧
           ((new.2 = .next ∧ new.1.ctx.timer.is_active = true) ∨
            (new.2 = .panicked nil_dereference ∧ s3.ctx.timer.is_active = true ∧
              s3.ctx.timer.tmr = none)))) := by
  refine ⟨_, rfl, ?_⟩
  obtain ⟨na, hlog, ⟨_, _, hops⟩, htimer⟩ :=
    action_faithful w (s3.mark (Event.call_action code arg)) code arg
  cases hA : action w (s3.mark (Event.call_action code arg)) code arg with
  | mk s4 o =>
    rw [hA] at hlog htimer
    simp only [State.mark] at hlog htimer
    cases o with
    | panic e =>
      refine ⟨Event.call_action code arg :: na, by simp [hlog], Or.inl ⟨?_, e, rfl⟩⟩
      rw [session_ops_cons_marker (Event.call_action code arg) _ rfl, hops]
    | ret text =>
      have hops2 : session_ops (Event.call_action code arg :: (na ++
          [Event.Println text, Event.call_reset])) =
          [Event.call_action code arg, Event.call_reset] := by
        rw [session_ops_cons_marker (Event.call_action code arg) _ rfl, session_ops_append, hops]
        rfl
      simp only [State.mark]
      cases hR : s4.ctx.timer.reset with
      | none =>
        refine ⟨Event.call_action code arg :: (na ++ [Event.Println text, Event.call_reset]),
          by simp [hlog], Or.inr ⟨hops2, Or.inr ⟨rfl, ?_⟩⟩⟩
        rw [htimer] at hR
        unfold command_timer.reset at hR
        split at hR
        · next ha =>
          split at hR
          · next ht => exact ⟨ha, ht⟩
          · cases hR
        · cases hR
      | some t =>
        refine ⟨Event.call_action code arg :: (na ++ [Event.Println text, Event.call_reset]),
          by simp [hlog], Or.inr ⟨hops2, Or.inl ⟨rfl, ?_⟩⟩⟩
        exact (reset_result _ _ hR).1

/-- C7 (as stated, refuted): the timer is active and the user types
`cd incoming`; the server changes directory and then fails the
current-directory query, so `action` panics: it has run once, and the timer
is not reset afterwards.  With an expired timer and a server that has gone
away, `disconnect` and `connect` are called, `connect` panics, and `action`
does not run at all. -/
theorem C7_iteration_cut_short_by_panic :
    session.ctx.timer.is_active = true ∧
    (repl_body (typing pwd_broken "cd incoming\n") session).2
      = .panicked { Error := "421 Service not available" } ∧
    session_ops (repl_body (typing pwd_broken "cd incoming\n") session).1.log
      = [Event.call_action CD "incoming"] ∧
    idle_session.ctx.timer.is_active = false ∧
    (repl_body (typing unreachable "ls\n") idle_session).2
      = .panicked { Error := "dial tcp: connection refused" } ∧
    session_ops (repl_body (typing unreachable "ls\n") idle_session).1.log
      = [Event.call_disconnect, Event.call_connect] := by
  decide

/-- C7 (amended): in a REPL iteration that dispatches a command (the line read
is neither end of input nor `quit`/`exit`), the session operations called
are, in this order, `disconnect`, `connect`, `action`, timer `reset` when the
flag `is_active` is false as the line is processed, and `action`, timer
`reset` when it is true: no `disconnect` and no `connect` occurs then.  The
sequence is cut short only by a panic: after `connect` when `connect`
panics, after `action` when `action` panics.  Whenever the iteration runs to
its end every operation of the sequence has been called exactly once and the
flag is true afterwards; the only other way it ends after the `reset` call is
the panic of `reset` on a timer whose flag is set while its timer pointer is
nil. -/
theorem C7_session_operations_of_an_iteration (w : World) (s : State) (line : String)
    (hread : w.ReadString (s.log ++ [Event.Print ("ftps[" ++ s.ctx.last_dir ++ "]$ ")])
      = (line, none))
    (hquit : strings.Trim line "\n\r" ≠ "quit") (hexit : strings.Trim line "\n\r" ≠ "exit") :
    ∃ new, (repl_body w s).1.log = s.log ++ new ∧
      (s.ctx.timer.is_active = false →
        (session_ops new = [Event.call_disconnect, Event.call_connect] ∧
          ∃ e, (repl_body w s).2 = .panicked e) ∨
        (session_ops new = [Event.call_disconnect, Event.call_connect,
            Event.call_action (parse (strings.Trim line "\n\r")).1
              (parse (strings.Trim line "\n\r")).2] ∧
          ∃ e, (repl_body w s).2 = .panicked e) ∨
        (session_ops new = [Event.call_disconnect, Event.call_connect,
            Event.call_action (parse (strings.Trim line "\n\r")).1
              (parse (strings.Trim line "\n\r")).2, Event.call_reset] ∧
          (repl_body w s).2 = .next ∧ (repl_body w s).1.ctx.timer.is_active = true)) ∧
      (s.ctx.timer.is_active = true →
        (session_ops new = [Event.call_action (parse (strings.Trim line "\n\r")).1
            (parse (strings.Trim line "\n\r")).2] ∧
          ∃ e, (repl_body w s).2 = .panicked e) ∨
        (session_ops new = [Event.call_action (parse (strings.Trim line "\n\r")).1
            (parse (strings.Trim line "\n\r")).2, Event.call_reset] ∧
          (((repl_body w s).2 = .next ∧ (repl_body w s).1.ctx.timer.is_active = true) ∨
           ((repl_body w s).2 = .panicked nil_dereference ∧ s.ctx.timer.tmr = none)))) := by
  have hq : ¬ (strings.Trim line "\n\r" = "quit" ∨ strings.Trim line "\n\r" = "exit") := by
    rintro (h | h)
    · exact hquit h
    · exact hexit h
  unfold repl_body
  simp only [hread, if_neg hq]
  cases ha : s.ctx.timer.is_active with
  | true =>
    simp only [not_true_eq_false, if_false]
    obtain ⟨new, hnew, added, hlog, hcase⟩ := dispatch_trace w
      { s with log := s.log ++ [Event.Print ("ftps[" ++ s.ctx.last_dir ++ "]$ ")] ++
          [Event.ReadString] }
      (parse (strings.Trim line "\n\r")).1 (parse (strings.Trim line "\n\r")).2
    rw [hnew]
    refine ⟨[Event.Print ("ftps[" ++ s.ctx.last_dir ++ "]$ "), Event.ReadString] ++ added,
      (by rw [hlog]; simp), (fun h => by cases h), fun _ => ?_⟩
    have hops : session_ops ([Event.Print ("ftps[" ++ s.ctx.last_dir ++ "]$ "),
        Event.ReadString] ++ added) = session_ops added := by
      rw [session_ops_append]
      rfl
    rw [hops]
    rcases hcase with ⟨h1, h2⟩ | ⟨h1, h2 | ⟨h2, _, h3⟩⟩
    · exact Or.inl ⟨h1, h2⟩
    · exact Or.inr ⟨h1, Or.inl h2⟩
    · exact Or.inr ⟨h1, Or.inr ⟨h2, h3⟩⟩
  | false =>
    simp only [Bool.false_eq_true, not_false_eq_true, if_true]
    obtain ⟨nc, hclog, hcops, hctimer⟩ := connect_frame w
      ((disconnect (State.mark
        { s with log := s.log ++ [Event.Print ("ftps[" ++ s.ctx.last_dir ++ "]$ ")] ++
          [Event.ReadString] } Event.call_disconnect)).mark Event.call_connect)
    cases hC : connect w
      ((disconnect (State.mark
        { s with log := s.log ++ [Event.Print ("ftps[" ++ s.ctx.last_dir ++ "]$ ")] ++
          [Event.ReadString] } Event.call_disconnect)).mark Event.call_connect) with
    | mk s3 oc =>
      rw [hC] at hclog hctimer
      simp only [State.mark, disconnect] at hclog hctimer
      have hpre : ∀ rest : Log,
          session_ops ([Event.Print ("ftps[" ++ s.ctx.last_dir ++ "]$ "), Event.ReadString,
            Event.call_disconnect, Event.Close s.ctx.ftp, Event.call_connect] ++ nc ++ rest)
          = Event.call_disconnect :: Event.call_connect :: session_ops rest := by
        intro rest
        rw [session_ops_append, session_ops_append, hcops]
        rfl
      cases oc with
      | panic e =>
        refine ⟨[Event.Print ("ftps[" ++ s.ctx.last_dir ++ "]$ "), Event.ReadString,
            Event.call_disconnect, Event.Close s.ctx.ftp, Event.call_connect] ++ nc ++ [],
          (by simp [hclog]), (fun _ => Or.inl ⟨?_, e, rfl⟩), (fun h => by cases h)⟩
        rw [hpre]
        rfl
      | ret u =>
        obtain ⟨new, hnew, added, hlog, hcase⟩ := dispatch_trace w s3
          (parse (strings.Trim line "\n\r")).1 (parse (strings.Trim line "\n\r")).2
        simp only
        rw [hnew]
        refine ⟨[Event.Print ("ftps[" ++ s.ctx.last_dir ++ "]$ "), Event.ReadString,
            Event.call_disconnect, Event.Close s.ctx.ftp, Event.call_connect] ++ nc ++ added,
          (by rw [hlog, hclog]; simp), (fun _ => ?_), (fun h => by cases h)⟩
        rw [hpre]
        rcases hcase with ⟨h1, h2⟩ | ⟨h1, h2 | ⟨_, h3, _⟩⟩
        · exact Or.inr (Or.inl ⟨by rw [h1], h2⟩)
        · exact Or.inr (Or.inr ⟨by rw [h1], h2⟩)
        · rw [hctimer, ha] at h3
          cases h3

theorem C7_session_operations_of_an_iteration_witness :
    (typing calm "ls\n").ReadString
      (idle_session.log ++ [Event.Print ("ftps[" ++ idle_session.ctx.last_dir ++ "]$ ")])
      = ("ls\n", none) ∧
    strings.Trim "ls\n" "\n\r" ≠ "quit" ∧ strings.Trim "ls\n" "\n\r" ≠ "exit" ∧
    idle_session.ctx.timer.is_active = false ∧
    session_ops (repl_body (typing calm "ls\n") idle_session).1.log
      = [Event.call_disconnect, Event.call_connect, Event.call_action LS "", Event.call_reset] ∧
    ∃ new, (repl_body (typing calm "ls\n") idle_session).1.log = idle_session.log ++ new :=
  ⟨rfl, by decide, by decide, rfl, by decide,
   (C7_session_operations_of_an_iteration (typing calm "ls\n") idle_session "ls\n" rfl
      (by decide) (by decide)).imp (fun _ h => h.1)⟩

end GoFtps
